import Mathlib

/-
Verification of the stocktopus provider layer.

Shallow embedding conventions:
- Go float64 values are modelled as rationals; the operations the theorems
  touch (sign tests, division by 100, subtraction of whole tokens) are exact,
  so the rational model agrees with the double-precision code at every input
  a theorem evaluates.
- Go int / int64 are modelled as Int; machine-width overflow is irrelevant to
  every statement below except strconv.ParseInt, which checks the int64 range
  explicitly, as the Go function does.
- time.Time is modelled as an instant in integer nanoseconds since the Unix
  epoch together with its location (Go times carry a location; the UTC method
  replaces it with UTC and keeps the instant).
- HTTP transport is abstracted away: each adapter call is a function of the
  symbol(s) and the decoded vendor response (status code plus decoded body),
  which is exactly the data the Go code branches on after io.ReadAll and
  json.Unmarshal.
-/

deriving instance DecidableEq for Except

namespace Stocktopus

/-- Location attached to a Go time.Time value: UTC, a fixed zone produced by
parsing an RFC3339 numeric offset, or the process-local zone produced by
time.Unix. -/
inductive Loc
  | utc
  | fixedOffset (sec : Int)
  | goLocal
  deriving DecidableEq, Repr

/-- A Go time.Time: the absolute instant in nanoseconds since the Unix epoch,
plus the location the value is expressed in. -/
structure GoTime where
  unixNano : Int
  loc : Loc
  deriving DecidableEq, Repr

/-- The UTC method of time.Time: same instant, location forced to UTC. -/
def GoTime.toUTC (t : GoTime) : GoTime := ⟨t.unixNano, .utc⟩

/-- Leap-year rule of the proleptic Gregorian calendar used by the Go time
package. -/
def isLeapYear (y : Int) : Bool := y % 4 == 0 && (y % 100 != 0 || y % 400 == 0)

/-- Number of days in a month, as validated by Go time.Parse. -/
def daysInMonth (y m : Int) : Int :=
  if m = 2 then (if isLeapYear y then 29 else 28)
  else if m = 4 ∨ m = 6 ∨ m = 9 ∨ m = 11 then 30
  else 31

/-- Days from the Unix epoch to the civil date y-m-d in the proleptic
Gregorian calendar (the calendar of the Go time package). Uses floor
division so the formula is uniform in the year. -/
def daysFromCivil (y m d : Int) : Int :=
  let yy := if m ≤ 2 then y - 1 else y
  let era := Int.fdiv yy 400
  let yoe := yy - era * 400
  let mp := if 2 < m then m - 3 else m + 9
  let doy := Int.fdiv (153 * mp + 2) 5 + d - 1
  let doe := yoe * 365 + Int.fdiv yoe 4 - Int.fdiv yoe 100 + doy
  era * 146097 + doe - 719468

/-- Unix seconds of a civil UTC datetime. -/
def civilSecs (y m d hh mi s : Int) : Int :=
  daysFromCivil y m d * 86400 + hh * 3600 + mi * 60 + s

/-- The Go time.Time denoting a civil UTC datetime. -/
def civilUTC (y m d hh mi s : Int) : GoTime :=
  ⟨civilSecs y m d hh mi s * 1000000000, .utc⟩

/-- Numeric value of a decimal digit character, if it is one. -/
def digitVal (c : Char) : Option Int :=
  if c.isDigit then some ((c.toNat : Int) - 48) else none

/-- Read exactly n decimal digits into a number, returning the rest of the
input; fails if a non-digit appears or the input ends early. Models the
fixed-width numeric fields of a Go time layout. -/
def readNDigitsAux : Nat → Int → List Char → Option (Int × List Char)
  | 0, acc, cs => some (acc, cs)
  | n + 1, acc, c :: cs =>
      match digitVal c with
      | some d => readNDigitsAux n (acc * 10 + d) cs
      | none => none
  | _ + 1, _, [] => none

def readNDigits (n : Nat) (cs : List Char) : Option (Int × List Char) :=
  readNDigitsAux n 0 cs

/-- Consume one expected literal character of a layout. -/
def expectChar (c : Char) : List Char → Option (List Char)
  | c0 :: cs => if c0 = c then some cs else none
  | [] => none

/-- Collect the leading run of digit characters. -/
def takeDigits : List Char → List Int × List Char
  | [] => ([], [])
  | c :: cs =>
      match digitVal c with
      | some d =>
          let (ds, rest) := takeDigits cs
          (d :: ds, rest)
      | none => ([], c :: cs)

/-- Nanoseconds denoted by a fractional-second digit run, as Go time.Parse
computes it: only the first nine digits are significant. -/
def fracNanos (ds : List Int) : Int :=
  let ds9 := ds.take 9
  (ds9.foldl (fun acc d => acc * 10 + d) 0) * (10 ^ (9 - ds9.length))

/-- Optional fractional second after the seconds field: a period followed by
at least one digit. Go time.Parse accepts this even when the layout has no
fractional-second field. Returns the nanoseconds and the rest. -/
def readOptFrac (cs : List Char) : Int × List Char :=
  match cs with
  | '.' :: c :: rest =>
      match digitVal c with
      | some d =>
          let (ds, rest2) := takeDigits rest
          (fracNanos (d :: ds), rest2)
      | none => (0, cs)
  | _ => (0, cs)

/-- Range validation that Go time.Parse applies to a parsed civil date. -/
def validDate (y m d : Int) : Bool :=
  1 ≤ m && m ≤ 12 && 1 ≤ d && d ≤ daysInMonth y m

/-- Range validation that Go time.Parse applies to a parsed clock time. -/
def validClock (hh mi s : Int) : Bool :=
  0 ≤ hh && hh ≤ 23 && 0 ≤ mi && mi ≤ 59 && 0 ≤ s && s ≤ 59

/-- Parse the numeric date part y-m-d common to several layouts. -/
def readDatePart (cs : List Char) : Option (Int × Int × Int × List Char) := do
  let (y, cs) ← readNDigits 4 cs
  let cs ← expectChar '-' cs
  let (m, cs) ← readNDigits 2 cs
  let cs ← expectChar '-' cs
  let (d, cs) ← readNDigits 2 cs
  pure (y, m, d, cs)

/-- Parse the clock part hh:mm:ss with optional fractional second. -/
def readClockPart (cs : List Char) : Option (Int × Int × Int × Int × List Char) := do
  let (hh, cs) ← readNDigits 2 cs
  let cs ← expectChar ':' cs
  let (mi, cs) ← readNDigits 2 cs
  let cs ← expectChar ':' cs
  let (ss, cs) ← readNDigits 2 cs
  let (ns, cs) := readOptFrac cs
  pure (hh, mi, ss, ns, cs)

/-- Build the parsed time from civil fields and a zone offset, with Go's
range validation. An offset of none means the layout carried no zone, which
Go interprets as UTC. -/
def mkParsedTime (y m d hh mi ss ns : Int) (offset : Option Int) : Option GoTime :=
  if validDate y m d && validClock hh mi ss then
    match offset with
    | none => some ⟨(civilSecs y m d hh mi ss) * 1000000000 + ns, .utc⟩
    | some o => some ⟨(civilSecs y m d hh mi ss - o) * 1000000000 + ns,
        if o = 0 then .utc else .fixedOffset o⟩
  else none

/-- Go time.Parse with the RFC3339 layout (also the RFC3339Nano layout: the
two accept the same strings, since Parse allows a fractional second whenever
the value carries one). Requires date, a literal T, clock, and a zone that is
either Z or a signed hh:mm offset, consuming the entire input. -/
def goParseRFC3339 (cs : List Char) : Option GoTime := do
  let (y, m, d, cs) ← readDatePart cs
  let cs ← expectChar 'T' cs
  let (hh, mi, ss, ns, cs) ← readClockPart cs
  match cs with
  | ['Z'] => mkParsedTime y m d hh mi ss ns (some 0)
  | sign :: rest =>
      if sign = '+' ∨ sign = '-' then do
        let (oh, rest) ← readNDigits 2 rest
        let rest ← expectChar ':' rest
        let (om, rest) ← readNDigits 2 rest
        match rest with
        | [] =>
            if oh ≤ 23 && om ≤ 59 then
              let o := oh * 3600 + om * 60
              mkParsedTime y m d hh mi ss ns (some (if sign = '-' then -o else o))
            else none
        | _ => none
      else none
  | [] => none

/-- Go time.Parse with the date-only layout 2006-01-02. -/
def goParseDateOnly (cs : List Char) : Option GoTime := do
  let (y, m, d, cs) ← readDatePart cs
  match cs with
  | [] => mkParsedTime y m d 0 0 0 0 none
  | _ => none

/-- Go time.Parse with a date-time layout where sep joins the date and clock
parts (space for 2006-01-02 15:04:05, T for 2006-01-02T15:04:05). -/
def goParseDateTime (sep : Char) (cs : List Char) : Option GoTime := do
  let (y, m, d, cs) ← readDatePart cs
  let cs ← expectChar sep cs
  let (hh, mi, ss, ns, cs) ← readClockPart cs
  match cs with
  | [] => mkParsedTime y m d hh mi ss ns none
  | _ => none

/-- Go time.Parse with the layout 01/02/2006 15:04:05. -/
def goParseSlashDateTime (cs : List Char) : Option GoTime := do
  let (m, cs) ← readNDigits 2 cs
  let cs ← expectChar '/' cs
  let (d, cs) ← readNDigits 2 cs
  let cs ← expectChar '/' cs
  let (y, cs) ← readNDigits 4 cs
  let cs ← expectChar ' ' cs
  let (hh, mi, ss, ns, cs) ← readClockPart cs
  match cs with
  | [] => mkParsedTime y m d hh mi ss ns none
  | _ => none

/-- A decoded Go interface value as the adapters receive it: the cases of
the type switches in normalize.go. float32 is omitted: no decoded JSON value
or adapter call site produces one. -/
inductive GoVal
  | str (s : String)
  | float (q : ℚ)
  | int (n : Int)
  | int64 (n : Int)
  | time (t : GoTime)
  | null
  deriving DecidableEq, Repr

/-- Truncation toward zero, the semantics of a Go float-to-integer
conversion. -/
def ratTrunc (q : ℚ) : Int := if 0 ≤ q then ⌊q⌋ else -⌊-q⌋

/-- strings.ToUpper on the ASCII range (the Lean Char.toUpper convention m
atches Go for the alphanumeric ticker symbols in play). -/
def goToUpper (s : String) : String := ⟨s.data.map Char.toUpper⟩

/-- An ASCII whitespace character, the cases strings.TrimSpace strips in
the inputs in play. -/
def isSpaceChar (c : Char) : Bool := c = ' ' || c = '\t' || c = '\n' || c = '\r'

/-- strings.TrimSpace: strip leading and trailing whitespace. -/
def goTrimSpace (s : String) : String :=
  ⟨((s.data.dropWhile isSpaceChar).reverse.dropWhile isSpaceChar).reverse⟩

/-- The plain decimal forms accepted by strconv.ParseFloat: optional sign,
digits with an optional fractional part, at least one digit in all. The
exponent, hexadecimal and inf and nan forms of ParseFloat are not modelled;
no statement below evaluates the parser at such an input. The rational
result is the exact value of the literal. -/
def goParseFloat (s : String) : Option ℚ :=
  let cs := s.data
  let (sign, cs) :=
    match cs with
    | '+' :: rest => ((1 : ℚ), rest)
    | '-' :: rest => ((-1 : ℚ), rest)
    | _ => ((1 : ℚ), cs)
  let (ipart, cs) := takeDigits cs
  match cs with
  | [] =>
      if ipart.isEmpty then none
      else some (sign * ((ipart.foldl (fun acc d => acc * 10 + d) 0 : Int) : ℚ))
  | '.' :: rest =>
      let (fpart, rest2) := takeDigits rest
      if rest2.isEmpty && !(ipart.isEmpty && fpart.isEmpty) then
        let iv : Int := ipart.foldl (fun acc d => acc * 10 + d) 0
        let fv : Int := fpart.foldl (fun acc d => acc * 10 + d) 0
        some (sign * ((iv : ℚ) + (fv : ℚ) / ((10 : ℚ) ^ fpart.length)))
      else none
  | _ => none

/-- strconv.ParseInt with base 10 and bit size 64: optional sign, decimal
digits only, and the result must fit in int64. -/
def goParseInt (s : String) : Option Int :=
  let cs := s.data
  let (neg, cs) :=
    match cs with
    | '+' :: rest => (false, rest)
    | '-' :: rest => (true, rest)
    | _ => (false, cs)
  let (ds, rest) := takeDigits cs
  if ds.isEmpty ∨ !rest.isEmpty then none
  else
    let v : Int := ds.foldl (fun acc d => acc * 10 + d) 0
    let v := if neg then -v else v
    if -(2 ^ 63) ≤ v ∧ v < 2 ^ 63 then some v else none

/-- ParsePrice from normalize.go: strings through ParseFloat, numeric types
passed through as dollars. -/
def ParsePrice : GoVal → Except String ℚ
  | .str s =>
      match goParseFloat s with
      | some q => .ok q
      | none => .error ("invalid price string " ++ s)
  | .float q => .ok q
  | .int n => .ok (n : ℚ)
  | .int64 n => .ok (n : ℚ)
  | _ => .error "invalid price type"

/-- ParseVolume from normalize.go: strings through ParseInt, floats
truncated by the int64 conversion, integers passed through. -/
def ParseVolume : GoVal → Except String Int
  | .str s =>
      match goParseInt s with
      | some n => .ok n
      | none => .error ("invalid volume string " ++ s)
  | .int64 n => .ok n
  | .int n => .ok n
  | .float q => .ok (ratTrunc q)
  | _ => .error "invalid volume type"

/-- strings.TrimSuffix of a single percent sign. -/
def trimPercentSuffix (s : String) : String :=
  if s.data.getLast? = some '%' then ⟨s.data.dropLast⟩ else s

/-- ParsePercentage from normalize.go: trim space and an optional percent
suffix, parse, and divide by 100; numeric input is divided by 100
directly. -/
def ParsePercentage : GoVal → Except String ℚ
  | .str s =>
      match goParseFloat (trimPercentSuffix (goTrimSpace s)) with
      | some q => .ok (q / 100)
      | none => .error ("invalid percentage string " ++ s)
  | .float q => .ok (q / 100)
  | _ => .error "invalid percentage type"

/-- ParseTimestamp from normalize.go. Strings go through time.Parse with, in
order, RFC3339, RFC3339Nano (the same acceptance, tried exactly as the code
does), the date-only layout, and three common date-time layouts. An int64 is
Unix milliseconds when above ten to the twelfth, Unix seconds otherwise; an
int is always Unix seconds; a float is Unix seconds with a fractional part;
a time value is passed through. Every success is returned through the UTC
method. -/
def ParseTimestamp : GoVal → Except String GoTime
  | .str s =>
      match goParseRFC3339 s.data with
      | some t => .ok t.toUTC
      | none =>
        match goParseRFC3339 s.data with
        | some t => .ok t.toUTC
        | none =>
          match goParseDateOnly s.data with
          | some t => .ok t.toUTC
          | none =>
            match goParseDateTime ' ' s.data with
            | some t => .ok t.toUTC
            | none =>
              match goParseDateTime 'T' s.data with
              | some t => .ok t.toUTC
              | none =>
                match goParseSlashDateTime s.data with
                | some t => .ok t.toUTC
                | none => .error ("unparseable timestamp string: " ++ s)
  | .int64 n =>
      if 1000000000000 < n then .ok (GoTime.toUTC ⟨n * 1000000, .goLocal⟩)
      else .ok (GoTime.toUTC ⟨n * 1000000000, .goLocal⟩)
  | .int n => .ok (GoTime.toUTC ⟨n * 1000000000, .goLocal⟩)
  | .float q =>
      let sec := ratTrunc q
      let nsec := ratTrunc ((q - (sec : ℚ)) * 1000000000)
      .ok (GoTime.toUTC ⟨sec * 1000000000 + nsec, .goLocal⟩)
  | .time t => .ok t.toUTC
  | .null => .error "invalid timestamp type"

/-- ProviderError from errors.go: the structured provider error. The
underlying error is carried as its message. -/
structure ProviderError where
  Provider : String
  Operation : String
  StatusCode : Int
  Err : String
  Retryable : Bool
  deriving DecidableEq, Repr

/-- isRetryableStatusCode from errors.go, case by case as the Go switch is
written. -/
def isRetryableStatusCode (statusCode : Int) : Bool :=
  if statusCode = 429 then true
  else if statusCode = 500 ∨ statusCode = 502 ∨ statusCode = 503 ∨ statusCode = 504 then true
  else if statusCode = 0 then true
  else if statusCode = 401 ∨ statusCode = 403 then false
  else if statusCode = 404 then false
  else if statusCode = 400 then false
  else decide (500 ≤ statusCode)

/-- NewProviderError from errors.go: the retry flag is derived from the
status code. -/
def NewProviderError (provider operation : String) (statusCode : Int) (err : String) :
    ProviderError :=
  ⟨provider, operation, statusCode, err, isRetryableStatusCode statusCode⟩

/-- The canonical Quote record from the model package. Bid and Ask default
to the Go zero value; no adapter sets them. -/
structure Quote where
  Symbol : String
  Price : ℚ
  Bid : ℚ := 0
  Ask : ℚ := 0
  Volume : Int
  Timestamp : GoTime
  Change : ℚ
  ChangePercent : ℚ
  deriving DecidableEq, Repr

namespace alphavantage

/-- A decoded JSON object, as Go map with string keys holding interface
values. Reading a missing key yields the nil interface, as in Go. -/
def jget (m : List (String × GoVal)) (k : String) : GoVal :=
  match m.lookup k with
  | some v => v
  | none => .null

/-- A Go string type assertion with the comma-ok form: failure yields the
zero string. -/
def asStringD (v : GoVal) : String :=
  match v with
  | .str s => s
  | _ => ""

/-- normalizeQuote of the alphavantage adapter: field by field from the
Global Quote object, via the shared parsing primitives. The symbol is the
vendor-returned field, trimmed and uppercased; there is no check on the
sign of the price. -/
def normalizeQuote (data : List (String × GoVal)) : Except String Quote :=
  let symbol := goToUpper (goTrimSpace (asStringD (jget data "01. symbol")))
  match ParsePrice (jget data "05. price") with
  | .error e => .error ("invalid price: " ++ e)
  | .ok price =>
    match ParseVolume (jget data "06. volume") with
    | .error e => .error ("invalid volume: " ++ e)
    | .ok volume =>
      match ParseTimestamp (jget data "07. latest trading day") with
      | .error e => .error ("invalid timestamp: " ++ e)
      | .ok timestamp =>
        match ParsePrice (jget data "09. change") with
        | .error e => .error ("invalid change: " ++ e)
        | .ok change =>
          match ParsePercentage (jget data "10. change percent") with
          | .error e => .error ("invalid change percent: " ++ e)
          | .ok changePercent =>
            .ok { Symbol := symbol, Price := price, Volume := volume,
                  Timestamp := timestamp, Change := change,
                  ChangePercent := changePercent }

/-- The decoded body of an Alpha Vantage response together with the HTTP
status: the Note, Error Message and Information sentinel keys when present
as strings, and the Global Quote object when present as an object. -/
structure AVResponse where
  StatusCode : Int
  Note : Option String
  ErrorMessage : Option String
  Information : Option String
  GlobalQuote : Option (List (String × GoVal))
  deriving Repr

/-- GetQuote of the alphavantage adapter as a function of the input symbol
and the decoded response: body sentinels are checked in source order and
mapped to synthetic status codes, then the Global Quote object is extracted
and normalized. The HTTP status code never gates control flow; it is only
recorded in errors. -/
def GetQuote (symbol : String) (resp : AVResponse) : Except ProviderError Quote :=
  match resp.Note with
  | some note => .error (NewProviderError "alphavantage" "GetQuote" 429 ("rate limit: " ++ note))
  | none =>
    match resp.ErrorMessage with
    | some m => .error (NewProviderError "alphavantage" "GetQuote" 400 m)
    | none =>
      match resp.Information with
      | some i => .error (NewProviderError "alphavantage" "GetQuote" 400 i)
      | none =>
        match resp.GlobalQuote with
        | none => .error (NewProviderError "alphavantage" "GetQuote" resp.StatusCode
            "missing Global Quote in response")
        | some gq =>
          match normalizeQuote gq with
          | .error e => .error (NewProviderError "alphavantage" "GetQuote" resp.StatusCode e)
          | .ok q => .ok q

/-- GetQuotes of the alphavantage adapter: sequential fan-out over GetQuote;
every per-symbol error becomes a nil entry and the call itself always
returns without error. respOf gives the vendor response each per-symbol
request would receive. -/
def GetQuotes (respOf : String → AVResponse) (symbols : List String) :
    Except ProviderError (List (Option Quote)) :=
  .ok (symbols.map fun s => (GetQuote s (respOf s)).toOption)

end alphavantage

namespace financialmodelingprep

/-- The fields of the FMP quote response that the adapter reads; the other
JSON fields are decoded but never used. -/
structure QuoteResponse where
  Symbol : String
  Price : ℚ
  ChangesPercentage : ℚ
  Change : ℚ
  Volume : Int
  Timestamp : Int
  deriving DecidableEq, Repr

/-- normalizeQuote of the fmp adapter: rejects a non-positive price and a
negative volume, parses the Unix-seconds timestamp, and converts the
percentage to a decimal fraction. -/
def normalizeQuote (data : QuoteResponse) : Except String Quote :=
  if data.Price ≤ 0 then .error "invalid price"
  else if data.Volume < 0 then .error "invalid volume"
  else
    match ParseTimestamp (.int64 data.Timestamp) with
    | .error e => .error ("invalid timestamp: " ++ e)
    | .ok ts =>
        .ok { Symbol := goToUpper (goTrimSpace data.Symbol), Price := data.Price, Volume := data.Volume,
              Timestamp := ts, Change := data.Change,
              ChangePercent := data.ChangesPercentage / 100 }

/-- The decoded body of an FMP response: an array of quote responses, an
object (whose Error Message key may be present), or bytes that decode as
neither. -/
inductive FMPBody
  | arr (qs : List QuoteResponse)
  | errObj (errorMessage : Option String)
  | malformed
  deriving Repr

/-- An FMP HTTP response: status code and decoded body. -/
structure FMPResponse where
  StatusCode : Int
  Body : FMPBody
  deriving Repr

/-- GetQuote of the fmp adapter as a function of the input symbol and the
response: explicit 401 and 429 checks, then a generic non-200 error, then
the decoded array; an empty array is the vendor not-found convention and
becomes a 404. -/
def GetQuote (symbol : String) (resp : FMPResponse) : Except ProviderError Quote :=
  if resp.StatusCode = 401 then
    .error (NewProviderError "fmp" "GetQuote" 401 "authentication failed: invalid API key")
  else if resp.StatusCode = 429 then
    .error (NewProviderError "fmp" "GetQuote" 429 "rate limit exceeded")
  else if resp.StatusCode ≠ 200 then
    .error (NewProviderError "fmp" "GetQuote" resp.StatusCode "HTTP error")
  else
    match resp.Body with
    | .arr [] => .error (NewProviderError "fmp" "GetQuote" 404
        ("symbol " ++ symbol ++ " not found"))
    | .arr (q :: _) =>
        match normalizeQuote q with
        | .error e => .error (NewProviderError "fmp" "GetQuote" resp.StatusCode e)
        | .ok quote => .ok quote
    | .errObj (some m) => .error (NewProviderError "fmp" "GetQuote" resp.StatusCode m)
    | .errObj none => .error (NewProviderError "fmp" "GetQuote" resp.StatusCode
        "json unmarshal error")
    | .malformed => .error (NewProviderError "fmp" "GetQuote" resp.StatusCode
        "json unmarshal error")

/-- Insert with overwrite into the model of a Go map from symbol keys to
quote responses. -/
def mapInsert (m : List (String × QuoteResponse)) (k : String) (v : QuoteResponse) :
    List (String × QuoteResponse) :=
  match m with
  | [] => [(k, v)]
  | (k0, v0) :: rest => if k0 = k then (k, v) :: rest else (k0, v0) :: mapInsert rest k v

/-- The responseMap loop of GetQuotes: each response element is inserted
under its raw returned Symbol field. -/
def buildResponseMap (qs : List QuoteResponse) : List (String × QuoteResponse) :=
  qs.foldl (fun m q => mapInsert m q.Symbol q) []

/-- The last element of qs whose returned Symbol field equals k: the value a
lookup in the overwriting map yields. -/
def lastMatching (qs : List QuoteResponse) (k : String) : Option QuoteResponse :=
  match qs with
  | [] => none
  | q :: rest =>
      match lastMatching rest k with
      | some r => some r
      | none => if q.Symbol = k then some q else none

/-- GetQuotes of the fmp adapter as a function of the input symbols and the
single batch response: empty input short-circuits, any non-200 status fails
the whole call, and a decoded array is matched back to the input order by
looking up the uppercased input symbol in the map keyed by the raw returned
symbols; a missing key or a failed normalization yields a nil entry. -/
def GetQuotes (symbols : List String) (resp : FMPResponse) :
    Except ProviderError (List (Option Quote)) :=
  if symbols = [] then .ok []
  else if resp.StatusCode ≠ 200 then
    .error (NewProviderError "fmp" "GetQuotes" resp.StatusCode "HTTP error")
  else
    match resp.Body with
    | .arr qs =>
        let responseMap := buildResponseMap qs
        .ok (symbols.map fun s =>
          match responseMap.lookup (goToUpper s) with
          | some q => (normalizeQuote q).toOption
          | none => none)
    | _ => .error (NewProviderError "fmp" "GetQuotes" resp.StatusCode "json unmarshal error")

end financialmodelingprep

namespace polygon

/-- Daily trading data from the Polygon snapshot. -/
structure DayData where
  Open : ℚ
  High : ℚ
  Low : ℚ
  Close : ℚ
  Volume : Int
  deriving DecidableEq, Repr

/-- Ticker information from the Polygon snapshot. -/
structure TickerData where
  Ticker : String
  TodaysChange : ℚ
  TodaysChangePerc : ℚ
  Updated : Int
  Day : DayData
  PrevDay : DayData
  deriving DecidableEq, Repr

/-- The decoded Polygon snapshot response. -/
structure SnapshotResponse where
  Status : String
  Ticker : TickerData
  deriving Repr

/-- A Polygon HTTP response: status code and decoded body; none models a
body that fails to decode. -/
structure PolygonResponse where
  StatusCode : Int
  Body : Option SnapshotResponse
  deriving Repr

/-- normalizeQuote of the polygon adapter: price from day close with a
positivity check, volume with a sign check, the updated field parsed as
Unix milliseconds, percentage converted to a decimal fraction. -/
def normalizeQuote (data : TickerData) : Except String Quote :=
  if data.Day.Close ≤ 0 then .error "invalid price"
  else if data.Day.Volume < 0 then .error "invalid volume"
  else
    match ParseTimestamp (.int64 data.Updated) with
    | .error e => .error ("invalid timestamp: " ++ e)
    | .ok ts =>
        .ok { Symbol := goToUpper (goTrimSpace data.Ticker), Price := data.Day.Close,
              Volume := data.Day.Volume, Timestamp := ts, Change := data.TodaysChange,
              ChangePercent := data.TodaysChangePerc / 100 }

/-- GetQuote of the polygon adapter as a function of the input symbol and
the response: non-200 fails with that status, a body that does not decode
fails, the ERROR and NOT_FOUND body sentinels become 400 and 404, and the
rest is normalized. -/
def GetQuote (symbol : String) (resp : PolygonResponse) : Except ProviderError Quote :=
  if resp.StatusCode ≠ 200 then
    .error (NewProviderError "polygon" "GetQuote" resp.StatusCode "HTTP error")
  else
    match resp.Body with
    | none => .error (NewProviderError "polygon" "GetQuote" resp.StatusCode
        "json unmarshal error")
    | some body =>
        if body.Status = "ERROR" then
          .error (NewProviderError "polygon" "GetQuote" 400 "status: ERROR")
        else if body.Status = "NOT_FOUND" then
          .error (NewProviderError "polygon" "GetQuote" 404 "status: NOT_FOUND")
        else
          match normalizeQuote body.Ticker with
          | .error e => .error (NewProviderError "polygon" "GetQuote" resp.StatusCode e)
          | .ok q => .ok q

/-- GetQuotes of the polygon adapter: sequential fan-out over GetQuote;
every per-symbol error becomes a nil entry and the call itself always
returns without error. -/
def GetQuotes (respOf : String → PolygonResponse) (symbols : List String) :
    Except ProviderError (List (Option Quote)) :=
  .ok (symbols.map fun s => (GetQuote s (respOf s)).toOption)

end polygon

/-- Circuit breaker states, as in the source. -/
inductive CircuitState
  | StateClosed
  | StateOpen
  | StateHalfOpen
  deriving DecidableEq, Repr

/-- Circuit breaker configuration: the consecutive-failure threshold and the
reset timeout in nanoseconds. -/
structure CircuitBreakerConfig where
  MaxFailures : Int
  ResetTimeout : Int
  deriving DecidableEq, Repr

/-- The mutable state of CircuitBreakerProvider: state tag, consecutive
failure count, and the last failure instant in nanoseconds. The wrapped
provider itself is left abstract; calls carry the inner result
explicitly. -/
structure CircuitBreakerProvider where
  config : CircuitBreakerConfig
  state : CircuitState
  failures : Int
  lastFailureTime : Int
  deriving DecidableEq, Repr

/-- NewCircuitBreakerProvider: closed, with the Go zero values for the
counter and the last-failure instant. -/
def NewCircuitBreakerProvider (config : CircuitBreakerConfig) : CircuitBreakerProvider :=
  ⟨config, .StateClosed, 0, 0⟩

/-- beforeRequest at the instant now: closed and half-open admit; open
admits only when strictly more than ResetTimeout has passed since the last
failure, switching to half-open, and otherwise rejects with ErrCircuitOpen
(the some () result). -/
def beforeRequest (cb : CircuitBreakerProvider) (now : Int) :
    Option Unit × CircuitBreakerProvider :=
  match cb.state with
  | .StateClosed => (none, cb)
  | .StateOpen =>
      if cb.config.ResetTimeout < now - cb.lastFailureTime then
        (none, { cb with state := .StateHalfOpen })
      else (some (), cb)
  | .StateHalfOpen => (none, cb)

/-- onSuccess: reset the counter; half-open (and, defensively, open) closes
the circuit. -/
def onSuccess (cb : CircuitBreakerProvider) : CircuitBreakerProvider :=
  match cb.state with
  | .StateClosed => { cb with failures := 0 }
  | .StateHalfOpen => { cb with state := .StateClosed, failures := 0 }
  | .StateOpen => { cb with state := .StateClosed, failures := 0 }

/-- onFailure at the instant now: increment the counter and stamp the
instant unconditionally, then trip to open from closed at the threshold and
from half-open always. -/
def onFailure (cb : CircuitBreakerProvider) (now : Int) : CircuitBreakerProvider :=
  let cb1 := { cb with failures := cb.failures + 1, lastFailureTime := now }
  match cb1.state with
  | .StateClosed =>
      if cb1.config.MaxFailures ≤ cb1.failures then { cb1 with state := .StateOpen } else cb1
  | .StateHalfOpen => { cb1 with state := .StateOpen }
  | .StateOpen => cb1

/-- afterRequest: a nil error is a success, anything else a failure; the
kind of the error is never examined. -/
def afterRequest (cb : CircuitBreakerProvider) (err : Option ProviderError) (now : Int) :
    CircuitBreakerProvider :=
  match err with
  | none => onSuccess cb
  | some _ => onFailure cb now

/-- Outcome of one call through the breaker: rejection with ErrCircuitOpen
before the inner provider is touched, or the inner result returned
unchanged. -/
inductive CBOutcome
  | circuitOpen
  | innerResult (err : Option ProviderError)
  deriving DecidableEq, Repr

/-- One operation call through CircuitBreakerProvider (GetQuote, GetQuotes
and HealthCheck share this shape): beforeRequest at tBefore; if admitted,
the inner provider runs and produces innerErr, and afterRequest records it
at tAfter. -/
def cbCall (cb : CircuitBreakerProvider) (tBefore tAfter : Int)
    (innerErr : Option ProviderError) : CBOutcome × CircuitBreakerProvider :=
  match beforeRequest cb tBefore with
  | (some _, cb1) => (.circuitOpen, cb1)
  | (none, cb1) => (.innerResult innerErr, afterRequest cb1 innerErr tAfter)

/-- A sequence of calls through the breaker, each given as the beforeRequest
instant, the afterRequest instant, and the inner result; returns the
outcomes in order and the final breaker state. -/
def runCalls (cb : CircuitBreakerProvider) :
    List (Int × Int × Option ProviderError) → List CBOutcome × CircuitBreakerProvider
  | [] => ([], cb)
  | c :: rest =>
      let (o, cb1) := cbCall cb c.1 c.2.1 c.2.2
      let (os, cb2) := runCalls cb1 rest
      (o :: os, cb2)

/-- A sequence of bare beforeRequest probes with no recorded result. -/
def beforeRequestRun (cb : CircuitBreakerProvider) :
    List Int → List (Option Unit) × CircuitBreakerProvider
  | [] => ([], cb)
  | t :: rest =>
      let (r, cb1) := beforeRequest cb t
      let (rs, cb2) := beforeRequestRun cb1 rest
      (r :: rs, cb2)

/-- The facade shapes a builder can produce: a base adapter, or one of the
four middleware wrappers around an inner facade. -/
inductive StockProvider
  | base (name : String)
  | rateLimited (inner : StockProvider)
  | retryable (inner : StockProvider)
  | circuitBreaker (inner : StockProvider)
  | observable (inner : StockProvider)
  deriving DecidableEq, Repr

/-- ProviderBuilder: holds the current provider reference. -/
structure ProviderBuilder where
  provider : StockProvider
  deriving DecidableEq, Repr

def NewProviderBuilder (baseProvider : StockProvider) : ProviderBuilder :=
  ⟨baseProvider⟩

def ProviderBuilder.WithRateLimit (b : ProviderBuilder) : ProviderBuilder :=
  ⟨.rateLimited b.provider⟩

def ProviderBuilder.WithRetry (b : ProviderBuilder) : ProviderBuilder :=
  ⟨.retryable b.provider⟩

def ProviderBuilder.WithCircuitBreaker (b : ProviderBuilder) : ProviderBuilder :=
  ⟨.circuitBreaker b.provider⟩

def ProviderBuilder.WithObservability (b : ProviderBuilder) : ProviderBuilder :=
  ⟨.observable b.provider⟩

def ProviderBuilder.Build (b : ProviderBuilder) : StockProvider := b.provider

/-- The four With methods a caller can invoke on the builder. -/
inductive WithCall
  | rateLimit
  | retry
  | circuitBreaker
  | observability
  deriving DecidableEq, Repr

/-- Dispatch one With call on the builder. -/
def applyWith (b : ProviderBuilder) : WithCall → ProviderBuilder
  | .rateLimit => b.WithRateLimit
  | .retry => b.WithRetry
  | .circuitBreaker => b.WithCircuitBreaker
  | .observability => b.WithObservability

/-- Apply a caller-chosen sequence of With calls in order. -/
def applyWiths (b : ProviderBuilder) (ws : List WithCall) : ProviderBuilder :=
  ws.foldl applyWith b

/-- The facade wrapper each With call adds. -/
def wrapOf (w : WithCall) (p : StockProvider) : StockProvider :=
  match w with
  | .rateLimit => .rateLimited p
  | .retry => .retryable p
  | .circuitBreaker => .circuitBreaker p
  | .observability => .observable p

/-- TokenBucketLimiter state: fractional token count, capacity, the
nanoseconds to refill one token, and the last refill instant. Times are
rationals so an instant read mid-interval is expressible. -/
structure TokenBucketLimiter where
  tokens : ℚ
  capacity : ℚ
  refillPer : ℚ
  lastCheck : ℚ
  deriving DecidableEq, Repr

/-- NewTokenBucketLimiter: a full bucket; refillPer is the integer Duration
division of the window by maxRequests, in nanoseconds. -/
def NewTokenBucketLimiter (maxRequests : Int) (window : Int) (now : ℚ) : TokenBucketLimiter :=
  ⟨(maxRequests : ℚ), (maxRequests : ℚ), ((window / maxRequests : Int) : ℚ), now⟩

/-- The refill step shared by Allow and each Wait iteration: add tokens in
proportion to the elapsed time, cap at capacity, and stamp the check
instant. -/
def refill (tb : TokenBucketLimiter) (now : ℚ) : TokenBucketLimiter :=
  let elapsed := now - tb.lastCheck
  let tokensToAdd := elapsed / tb.refillPer
  { tb with tokens := min tb.capacity (tb.tokens + tokensToAdd), lastCheck := now }

/-- Allow at the instant now: refill, then consume one token iff a full one
is available. -/
def Allow (tb : TokenBucketLimiter) (now : ℚ) : Bool × TokenBucketLimiter :=
  let tb1 := refill tb now
  if 1 ≤ tb1.tokens then (true, { tb1 with tokens := tb1.tokens - 1 })
  else (false, tb1)

/-- One iteration of the Wait loop, up to the point the lock is released: on
a token, consume it and finish (none); otherwise report the computed sleep
for the exact deficit (some waitTime) with the state as released. -/
def waitStep (tb : TokenBucketLimiter) (now : ℚ) : Option ℚ × TokenBucketLimiter :=
  let tb1 := refill tb now
  if 1 ≤ tb1.tokens then (none, { tb1 with tokens := tb1.tokens - 1 })
  else (some ((1 - tb1.tokens) * tb.refillPer), tb1)

/-- A sequence of Allow calls at the given instants, keeping the final
state. -/
def runAllow (tb : TokenBucketLimiter) (ts : List ℚ) : TokenBucketLimiter :=
  ts.foldl (fun b t => (Allow b t).2) tb

/-- The bucket invariant of claim C10: the token count stays between zero
and the capacity. -/
def BucketInv (tb : TokenBucketLimiter) : Prop :=
  0 ≤ tb.tokens ∧ tb.tokens ≤ tb.capacity

/-- C1: for every provider name, operation name, underlying cause and
integer status code s, NewProviderError marks the error retryable exactly
when s is 429, s is 0, or s is at least 500; every other status below 500
is non-retryable. -/
theorem C1_new_provider_error_retryable (provider operation err : String) (s : Int) :
    (NewProviderError provider operation s err).Retryable = true ↔
      s = 429 ∨ s = 0 ∨ 500 ≤ s := by
  simp only [NewProviderError, isRetryableStatusCode]
  split_ifs <;> simp_all <;> omega

/-- Body of the response exhibiting the C2 violation: a well-formed Global
Quote whose vendor symbol differs from the input and whose price parses to
zero. -/
def c2FailingBody : List (String × GoVal) :=
  [("01. symbol", .str "IBM"), ("05. price", .float 0), ("06. volume", .str "100"),
   ("07. latest trading day", .str "2023-11-30"), ("09. change", .float 0),
   ("10. change percent", .float 0)]

/-- C2 fails on the code: the alphavantage adapter, asked for the symbol
aapl against a 200 response, returns without error a Quote whose Symbol is
the vendor-returned IBM rather than the uppercased input, and whose Price
is zero, contradicting the documented validation rules of the Quote type
(price strictly positive) that the claim states; no adapter compares the
Timestamp with the current time. -/
theorem C2_code_bug_eval :
    alphavantage.GetQuote "aapl"
        { StatusCode := 200, Note := none, ErrorMessage := none, Information := none,
          GlobalQuote := some c2FailingBody } =
      .ok { Symbol := "IBM", Price := 0, Volume := 100,
            Timestamp := civilUTC 2023 11 30 0 0 0, Change := 0, ChangePercent := 0 } ∧
    "IBM" ≠ goToUpper "aapl" ∧ ¬ (0 : ℚ) < 0 := by
  refine ⟨?_, by decide, by norm_num⟩
  have h1 : alphavantage.jget c2FailingBody "01. symbol" = .str "IBM" := rfl
  have h5 : alphavantage.jget c2FailingBody "05. price" = .float 0 := rfl
  have h6 : alphavantage.jget c2FailingBody "06. volume" = .str "100" := rfl
  have h7 : alphavantage.jget c2FailingBody "07. latest trading day" =
      .str "2023-11-30" := rfl
  have h9 : alphavantage.jget c2FailingBody "09. change" = .float 0 := rfl
  have h10 : alphavantage.jget c2FailingBody "10. change percent" = .float 0 := rfl
  have hvol : ParseVolume (.str "100") = .ok 100 := by decide
  have hts : ParseTimestamp (.str "2023-11-30") = .ok (civilUTC 2023 11 30 0 0 0) := by
    decide
  have hsym : goToUpper (goTrimSpace "IBM") = "IBM" := by decide
  simp only [alphavantage.GetQuote, alphavantage.normalizeQuote, h1, h5, h6, h7, h9, h10,
    hvol, hts, alphavantage.asStringD, hsym, ParsePrice, ParsePercentage]
  norm_num

/-- C3 fails on the code for the fan-out adapters: a vendor authentication
failure (HTTP 401, non-retryable) on every per-symbol request makes polygon
GetQuotes, and likewise alphavantage GetQuotes, return success with a nil
entry instead of failing the whole call. -/
theorem C3_counterexample :
    polygon.GetQuotes (fun _ => { StatusCode := 401, Body := none }) ["AAPL"] = .ok [none] ∧
    polygon.GetQuote "AAPL" { StatusCode := 401, Body := none } =
      .error (NewProviderError "polygon" "GetQuote" 401 "HTTP error") ∧
    (NewProviderError "polygon" "GetQuote" 401 "HTTP error").Retryable = false ∧
    alphavantage.GetQuotes
        (fun _ => { StatusCode := 401, Note := none, ErrorMessage := none,
                    Information := none, GlobalQuote := none }) ["AAPL"] = .ok [none] := by
  refine ⟨by decide, by decide, by decide, by decide⟩

/-- C3 amended: only the fmp adapter, whose GetQuotes issues a single
native batch request, fails the whole call on an authentication failure
(any non-200 status, 401 and 403 included) with a non-retryable structured
error; the alphavantage and polygon adapters fan out per symbol and turn
every per-symbol failure, authentication included, into a nil entry,
always returning a success whose length matches the input. -/
theorem C3_amended (symbols : List String) (resp : financialmodelingprep.FMPResponse)
    (hs : symbols ≠ []) (hauth : resp.StatusCode = 401 ∨ resp.StatusCode = 403) :
    (financialmodelingprep.GetQuotes symbols resp =
        .error (NewProviderError "fmp" "GetQuotes" resp.StatusCode "HTTP error") ∧
      (NewProviderError "fmp" "GetQuotes" resp.StatusCode "HTTP error").Retryable = false) ∧
    (∀ (respOf : String → alphavantage.AVResponse) (syms : List String),
      ∃ l, alphavantage.GetQuotes respOf syms = .ok l ∧ l.length = syms.length) ∧
    (∀ (respOf : String → polygon.PolygonResponse) (syms : List String),
      ∃ l, polygon.GetQuotes respOf syms = .ok l ∧ l.length = syms.length) := by
  refine ⟨⟨?_, ?_⟩, ?_, ?_⟩
  · have h200 : resp.StatusCode ≠ 200 := by rcases hauth with h | h <;> omega
    simp [financialmodelingprep.GetQuotes, hs, h200]
  · rcases hauth with h | h <;>
      simp [h, NewProviderError, isRetryableStatusCode]
  · exact fun respOf syms => ⟨_, rfl, by simp [alphavantage.GetQuotes]⟩
  · exact fun respOf syms => ⟨_, rfl, by simp [polygon.GetQuotes]⟩

/-- Witness for C3 amended at a concrete input: one symbol against a 401
batch response. -/
theorem C3_amended_witness :
    financialmodelingprep.GetQuotes ["AAPL"] { StatusCode := 401, Body := .malformed } =
      .error (NewProviderError "fmp" "GetQuotes" 401 "HTTP error") :=
  (C3_amended ["AAPL"] { StatusCode := 401, Body := .malformed }
    (by decide) (Or.inl rfl)).1.1

/-- C6 fails on the code: invoking the With methods in the order
observability, circuit breaker, retry, rate limit produces a facade whose
outermost wrapper is the rate limiter, not the observability layer; the
documented order only arises from the one invocation order rate limit,
retry, circuit breaker, observability. The builder does not enforce the
fixed order. -/
theorem C6_counterexample :
    (applyWiths (NewProviderBuilder (.base "alphavantage"))
        [.observability, .circuitBreaker, .retry, .rateLimit]).Build ≠
      .observable (.circuitBreaker (.retryable (.rateLimited (.base "alphavantage")))) ∧
    (applyWiths (NewProviderBuilder (.base "alphavantage"))
        [.rateLimit, .retry, .circuitBreaker, .observability]).Build =
      .observable (.circuitBreaker (.retryable (.rateLimited (.base "alphavantage")))) := by
  refine ⟨by decide, by decide⟩

/-- Each With call wraps the current provider reference in its middleware
layer. -/
theorem applyWith_provider (b : ProviderBuilder) (w : WithCall) :
    (applyWith b w).provider = wrapOf w b.provider := by
  cases w <;> rfl

/-- Build returns the base wrapped in the invoked layers in invocation
order, each call wrapping outside the previous ones. -/
theorem applyWiths_provider (ws : List WithCall) : ∀ b : ProviderBuilder,
    (applyWiths b ws).provider = ws.foldl (fun p w => wrapOf w p) b.provider := by
  induction ws with
  | nil => intro b; rfl
  | cons w ws ih =>
      intro b
      show (applyWiths (applyWith b w) ws).provider = _
      rw [ih (applyWith b w), applyWith_provider]
      rfl

/-- C6 amended: Build returns the base adapter wrapped in exactly the
layers the caller invoked, in invocation order with the last With call
outermost; the documented observability, circuit breaker, retry, rate
limit order (outermost to innermost) is obtained exactly by calling
WithRateLimit, WithRetry, WithCircuitBreaker, WithObservability in that
order, and is not enforced by the builder itself. -/
theorem C6_amended (a : StockProvider) (ws : List WithCall) :
    (applyWiths (NewProviderBuilder a) ws).Build =
      ws.foldl (fun p w => wrapOf w p) a ∧
    (applyWiths (NewProviderBuilder a)
        [.rateLimit, .retry, .circuitBreaker, .observability]).Build =
      .observable (.circuitBreaker (.retryable (.rateLimited a))) := by
  exact ⟨applyWiths_provider ws (NewProviderBuilder a), rfl⟩

/-- C7 fails on the code in two places: Unix 1699545600 denotes
2023-11-09T16:00:00Z, not the 12:00:00Z instant the claim gives, and the
seconds-versus-milliseconds threshold applies only to int64 input: a Go int
above ten to the twelfth is still interpreted as Unix seconds. -/
theorem C7_counterexample :
    ParseTimestamp (.int64 1699545600) = .ok (civilUTC 2023 11 9 16 0 0) ∧
    civilUTC 2023 11 9 16 0 0 ≠ civilUTC 2023 11 9 12 0 0 ∧
    ParseTimestamp (.int 1000000000001) = .ok ⟨1000000000001 * 1000000000, .utc⟩ ∧
    (⟨1000000000001 * 1000000000, .utc⟩ : GoTime) ≠ ⟨1000000000001 * 1000000, .utc⟩ ∧
    (1000000000000 : Int) < 1000000000001 := by
  refine ⟨by decide, by decide, by decide, by decide, by decide⟩

/-- C7 amended: ParseTimestamp treats an int64 at most ten to the twelfth
as Unix seconds and an int64 above it as Unix milliseconds (an int or
float input is always Unix seconds), so 1699545600 and 1699545600000
denote the same instant, 2023-11-09T16:00:00Z; the bare date 2023-11-30
maps to 2023-11-30T00:00:00Z; and every successfully parsed timestamp is
in UTC. -/
theorem C7_amended (n m : Int) (hn : n ≤ 10 ^ 12) (hm : 10 ^ 12 < m) :
    ParseTimestamp (.int64 n) = .ok ⟨n * 1000000000, .utc⟩ ∧
    ParseTimestamp (.int64 m) = .ok ⟨m * 1000000, .utc⟩ ∧
    ParseTimestamp (.int64 1699545600) = .ok (civilUTC 2023 11 9 16 0 0) ∧
    ParseTimestamp (.int64 1699545600000) = .ok (civilUTC 2023 11 9 16 0 0) ∧
    ParseTimestamp (.str "2023-11-30") = .ok (civilUTC 2023 11 30 0 0 0) ∧
    (∀ k : Int, ParseTimestamp (.int k) = .ok ⟨k * 1000000000, .utc⟩) ∧
    (∀ r t, ParseTimestamp r = .ok t → t.loc = .utc) := by
  refine ⟨?_, ?_, by decide, by decide, by decide, ?_, ?_⟩
  · have h : ¬ (1000000000000 : Int) < n := by omega
    simp [ParseTimestamp, h, GoTime.toUTC]
  · have h : (1000000000000 : Int) < m := by omega
    simp [ParseTimestamp, h, GoTime.toUTC]
  · intro k
    simp [ParseTimestamp, GoTime.toUTC]
  · intro r t h
    cases r <;> simp only [ParseTimestamp, GoTime.toUTC] at h <;>
      (repeat' split at h) <;> (try cases h) <;> rfl

/-- Witness for C7 amended: an int64 below the threshold parses as Unix
seconds and one above it as Unix milliseconds. -/
theorem C7_amended_witness :
    ParseTimestamp (.int64 3) = .ok ⟨3 * 1000000000, .utc⟩ ∧
    ParseTimestamp (.int64 2000000000000) = .ok ⟨2000000000000 * 1000000, .utc⟩ := by
  have h := C7_amended 3 2000000000000 (by norm_num) (by norm_num)
  exact ⟨h.1, h.2.1⟩

/-- The batch response element of the C8 counterexample: a well-formed
quote whose vendor-returned symbol is lowercase. -/
def c8Response : financialmodelingprep.QuoteResponse :=
  { Symbol := "aapl", Price := 1, ChangesPercentage := 0, Change := 0, Volume := 100,
    Timestamp := 1699545600 }

/-- C8 fails on the code: the response map is keyed by the raw returned
symbol, not the uppercased one, so a response element that matches the
input under the both-sides-uppercased comparison of the claim (and that
normalizes successfully) is nevertheless missed by the uppercased-input
lookup, and its entry comes back absent. -/
theorem C8_counterexample :
    financialmodelingprep.GetQuotes ["aapl"]
        { StatusCode := 200, Body := .arr [c8Response] } = .ok [none] ∧
    goToUpper c8Response.Symbol = goToUpper "aapl" ∧
    financialmodelingprep.normalizeQuote c8Response =
      .ok { Symbol := "AAPL", Price := 1, Volume := 100,
            Timestamp := civilUTC 2023 11 9 16 0 0, Change := 0,
            ChangePercent := 0 / 100 } := by
  refine ⟨by decide, by decide, ?_⟩
  have hts : ParseTimestamp (.int64 1699545600) = .ok (civilUTC 2023 11 9 16 0 0) := by
    decide
  have hsym : goToUpper (goTrimSpace "aapl") = "AAPL" := by decide
  have hp : ¬ (1 : ℚ) ≤ 0 := by norm_num
  have hv : ¬ (100 : Int) < 0 := by norm_num
  simp only [financialmodelingprep.normalizeQuote, c8Response, hts, hsym, hp, hv,
    if_false, ite_false, if_neg]

/-- Lookup after an overwriting insert: the inserted key shadows, every
other key is unchanged. -/
theorem lookup_mapInsert (m : List (String × financialmodelingprep.QuoteResponse))
    (k : String) (v : financialmodelingprep.QuoteResponse) (k2 : String) :
    (financialmodelingprep.mapInsert m k v).lookup k2 =
      if k2 = k then some v else m.lookup k2 := by
  induction m with
  | nil =>
      by_cases h : k2 = k
      · simp [financialmodelingprep.mapInsert, List.lookup, h]
      · have hb : (k2 == k) = false := by simp [h]
        simp [financialmodelingprep.mapInsert, List.lookup, hb, h]
  | cons p rest ih =>
      obtain ⟨k0, v0⟩ := p
      by_cases h0 : k0 = k
      · subst h0
        by_cases h2 : k2 = k0
        · subst h2
          simp [financialmodelingprep.mapInsert, List.lookup]
        · have hb : (k2 == k0) = false := by simp [h2]
          simp [financialmodelingprep.mapInsert, List.lookup, hb, h2]
      · by_cases h2 : k2 = k0
        · subst h2
          have hr : ¬ k2 = k := fun hh => h0 hh
          simp [financialmodelingprep.mapInsert, h0, List.lookup, hr]
        · have hb : (k2 == k0) = false := by simp [h2]
          simp only [financialmodelingprep.mapInsert, if_neg h0, List.lookup, hb]
          exact ih

/-- Folding the response-map construction over an arbitrary accumulator:
the lookup finds the last matching response, else falls back to the
accumulator. -/
theorem lookup_foldl_mapInsert (qs : List financialmodelingprep.QuoteResponse) :
    ∀ (m : List (String × financialmodelingprep.QuoteResponse)) (k : String),
    (qs.foldl (fun m q => financialmodelingprep.mapInsert m q.Symbol q) m).lookup k =
      match financialmodelingprep.lastMatching qs k with
      | some r => some r
      | none => m.lookup k := by
  induction qs with
  | nil => intro m k; simp [financialmodelingprep.lastMatching]
  | cons q rest ih =>
      intro m k
      simp only [List.foldl, financialmodelingprep.lastMatching]
      rw [ih]
      cases h : financialmodelingprep.lastMatching rest k with
      | some r => simp
      | none =>
          simp only []
          rw [lookup_mapInsert]
          by_cases hk : k = q.Symbol
          · simp [hk]
          · have : ¬ q.Symbol = k := fun hq => hk hq.symm
            simp [hk, this]

/-- The response map lookup is exactly the last response whose raw
returned symbol equals the key. -/
theorem lookup_buildResponseMap (qs : List financialmodelingprep.QuoteResponse)
    (k : String) :
    (financialmodelingprep.buildResponseMap qs).lookup k =
      financialmodelingprep.lastMatching qs k := by
  rw [financialmodelingprep.buildResponseMap, lookup_foldl_mapInsert]
  cases financialmodelingprep.lastMatching qs k <;> simp [List.lookup]

/-- C8 amended: for a 200 batch response, entry i is the normalized quote
of the last response element whose raw returned symbol equals the
uppercased input symbol; when no element matches under that one-sided
comparison, or the matching element fails normalization, the entry is
absent; the result has one entry per input symbol in input order. -/
theorem C8_amended (symbols : List String)
    (qs : List financialmodelingprep.QuoteResponse) (hs : symbols ≠ []) :
    financialmodelingprep.GetQuotes symbols { StatusCode := 200, Body := .arr qs } =
      .ok (symbols.map fun s =>
        match financialmodelingprep.lastMatching qs (goToUpper s) with
        | some q => (financialmodelingprep.normalizeQuote q).toOption
        | none => none) ∧
    (symbols.map fun s =>
        match financialmodelingprep.lastMatching qs (goToUpper s) with
        | some q => (financialmodelingprep.normalizeQuote q).toOption
        | none => none).length = symbols.length := by
  constructor
  · have h1 : financialmodelingprep.GetQuotes symbols { StatusCode := 200, Body := .arr qs } =
        .ok (symbols.map fun s =>
          match (financialmodelingprep.buildResponseMap qs).lookup (goToUpper s) with
          | some q => (financialmodelingprep.normalizeQuote q).toOption
          | none => none) := by
      simp [financialmodelingprep.GetQuotes, hs]
    rw [h1]
    congr 1
    exact List.map_congr_left fun s _ => by rw [lookup_buildResponseMap]
  · exact List.length_map _ _

/-- Witness for C8 amended at the concrete counterexample input. -/
theorem C8_amended_witness :
    financialmodelingprep.GetQuotes ["aapl"]
        { StatusCode := 200, Body := .arr [c8Response] } =
      .ok (["aapl"].map fun s =>
        match financialmodelingprep.lastMatching [c8Response] (goToUpper s) with
        | some q => (financialmodelingprep.normalizeQuote q).toOption
        | none => none) :=
  (C8_amended ["aapl"] [c8Response] (by decide)).1

/-- A half-open breaker admits a probe and is left unchanged by
beforeRequest. -/
theorem beforeRequest_halfOpen (cb : CircuitBreakerProvider) (t : Int)
    (h : cb.state = .StateHalfOpen) : beforeRequest cb t = (none, cb) := by
  simp [beforeRequest, h]

/-- A closed breaker admits a request and is left unchanged by
beforeRequest. -/
theorem beforeRequest_closed (cb : CircuitBreakerProvider) (t : Int)
    (h : cb.state = .StateClosed) : beforeRequest cb t = (none, cb) := by
  simp [beforeRequest, h]

/-- C9: while the breaker is half-open, every consecutive beforeRequest
probe with no intervening recorded result is admitted (returns nil) and the
state, half-open included, is untouched; admission is not latched to a
single probe. -/
theorem C9_halfopen_admits (cb : CircuitBreakerProvider) (ts : List Int)
    (h : cb.state = .StateHalfOpen) :
    beforeRequestRun cb ts = (List.replicate ts.length none, cb) := by
  induction ts with
  | nil => rfl
  | cons t rest ih =>
      simp [beforeRequestRun, beforeRequest_halfOpen cb t h, ih, List.replicate]

/-- Witness for C9: three consecutive probes on a concrete half-open
breaker are all admitted and the state stays half-open. -/
theorem C9_halfopen_admits_witness :
    beforeRequestRun ⟨⟨5, 60000000000⟩, .StateHalfOpen, 2, 0⟩ [0, 1, 2] =
      ([none, none, none], ⟨⟨5, 60000000000⟩, .StateHalfOpen, 2, 0⟩) := by
  have h := C9_halfopen_admits ⟨⟨5, 60000000000⟩, .StateHalfOpen, 2, 0⟩ [0, 1, 2] rfl
  simpa [List.replicate] using h

/-- C5 fails on the code: one admitted call whose inner result is the
non-retryable 401 authentication error moves the fresh breaker's
consecutive-failure counter from 0 to 1; afterRequest counts every error
uniformly. -/
theorem C5_counterexample :
    (cbCall (NewCircuitBreakerProvider ⟨5, 60000000000⟩) 0 0
        (some (NewProviderError "fmp" "GetQuote" 401 "authentication failed"))).2.failures
      = 1 ∧
    (NewCircuitBreakerProvider ⟨5, 60000000000⟩).failures = 0 ∧
    (NewProviderError "fmp" "GetQuote" 401 "authentication failed").Retryable = false := by
  refine ⟨by decide, by decide, by decide⟩

/-- C5 amended: every call admitted by a closed breaker whose inner result
is an error, the non-retryable 401 authentication error included,
increments the consecutive-failure counter by exactly one and stamps the
failure instant; the breaker never inspects the kind of the error. -/
theorem C5_amended (cb : CircuitBreakerProvider) (t1 t2 : Int) (e : ProviderError)
    (h : cb.state = .StateClosed) :
    (cbCall cb t1 t2 (some e)).2.failures = cb.failures + 1 ∧
    (cbCall cb t1 t2 (some e)).2.lastFailureTime = t2 := by
  simp only [cbCall, beforeRequest_closed cb t1 h, afterRequest, onFailure, h]
  split <;> simp

/-- Witness for C5 amended: a concrete closed breaker and a concrete 401
authentication error. -/
theorem C5_amended_witness :
    (cbCall (NewCircuitBreakerProvider ⟨5, 60000000000⟩) 0 7
        (some (NewProviderError "fmp" "GetQuote" 401 "authentication failed"))).2.failures =
      (NewCircuitBreakerProvider ⟨5, 60000000000⟩).failures + 1 :=
  (C5_amended (NewCircuitBreakerProvider ⟨5, 60000000000⟩) 0 7
    (NewProviderError "fmp" "GetQuote" 401 "authentication failed") rfl).1

/-- Failure calls on a closed breaker that stays strictly below the
threshold: every call is admitted and returns its inner failure, the
counter grows by the number of calls, and the state stays closed with the
configuration untouched. -/
theorem runCalls_closed (calls : List (Int × Int × ProviderError)) :
    ∀ cb : CircuitBreakerProvider, cb.state = .StateClosed →
    (cb.failures + calls.length : Int) < cb.config.MaxFailures →
    (runCalls cb (calls.map fun c => (c.1, c.2.1, some c.2.2))).1 =
      calls.map (fun c => .innerResult (some c.2.2)) ∧
    (runCalls cb (calls.map fun c => (c.1, c.2.1, some c.2.2))).2.state = .StateClosed ∧
    (runCalls cb (calls.map fun c => (c.1, c.2.1, some c.2.2))).2.failures =
      cb.failures + calls.length ∧
    (runCalls cb (calls.map fun c => (c.1, c.2.1, some c.2.2))).2.config = cb.config := by
  induction calls with
  | nil => intro cb h hlt; exact ⟨rfl, h, by simp [runCalls], rfl⟩
  | cons c rest ih =>
      intro cb h hlt
      simp only [List.length_cons] at hlt
      push_cast at hlt
      have hnotrip : ¬ cb.config.MaxFailures ≤ cb.failures + 1 := by omega
      have hcall : cbCall cb c.1 c.2.1 (some c.2.2) =
          (.innerResult (some c.2.2),
           { cb with failures := cb.failures + 1, lastFailureTime := c.2.1 }) := by
        simp [cbCall, beforeRequest_closed cb c.1 h, afterRequest, onFailure, h, hnotrip]
      have hrec := ih { cb with failures := cb.failures + 1, lastFailureTime := c.2.1 }
        (by simp [h])
        (by show cb.failures + 1 + (rest.length : Int) < cb.config.MaxFailures; omega)
      simp only [List.map_cons, runCalls, hcall, List.length_cons]
      refine ⟨congrArg _ hrec.1, hrec.2.1, ?_, hrec.2.2.2⟩
      rw [hrec.2.2.1]
      push_cast
      ring

/-- Concatenating call sequences through the breaker: run the first, then
the second from the resulting state. -/
theorem runCalls_append (xs ys : List (Int × Int × Option ProviderError)) :
    ∀ cb : CircuitBreakerProvider,
    runCalls cb (xs ++ ys) =
      ((runCalls cb xs).1 ++ (runCalls (runCalls cb xs).2 ys).1,
       (runCalls (runCalls cb xs).2 ys).2) := by
  induction xs with
  | nil => intro cb; simp [runCalls]
  | cons x xs ih => intro cb; simp [runCalls, ih]

/-- C4: starting from a fresh breaker with threshold at least one, a run of
exactly MaxFailures calls whose inner results are all failures is admitted
call by call (each outcome is the inner failure), trips the circuit to
open with the last call's failure stamp, and then any call arriving
strictly before ResetTimeout has elapsed since that stamp returns
ErrCircuitOpen without invoking the inner provider, whatever the inner
result would have been, and leaves the breaker unchanged. -/
theorem C4_breaker_trips (cfg : CircuitBreakerConfig)
    (init : List (Int × Int × ProviderError)) (ta tb : Int) (e : ProviderError)
    (hmax : 1 ≤ cfg.MaxFailures)
    (hlen : (init.length : Int) + 1 = cfg.MaxFailures)
    (t t2 : Int) (r : Option ProviderError)
    (ht : t - tb < cfg.ResetTimeout) :
    (runCalls (NewCircuitBreakerProvider cfg)
        ((init ++ [(ta, tb, e)]).map fun c => (c.1, c.2.1, some c.2.2))).1 =
      (init ++ [(ta, tb, e)]).map (fun c => .innerResult (some c.2.2)) ∧
    (runCalls (NewCircuitBreakerProvider cfg)
        ((init ++ [(ta, tb, e)]).map fun c => (c.1, c.2.1, some c.2.2))).2.state =
      .StateOpen ∧
    (runCalls (NewCircuitBreakerProvider cfg)
        ((init ++ [(ta, tb, e)]).map fun c => (c.1, c.2.1, some c.2.2))).2.lastFailureTime =
      tb ∧
    cbCall (runCalls (NewCircuitBreakerProvider cfg)
        ((init ++ [(ta, tb, e)]).map fun c => (c.1, c.2.1, some c.2.2))).2 t t2 r =
      (.circuitOpen,
       (runCalls (NewCircuitBreakerProvider cfg)
        ((init ++ [(ta, tb, e)]).map fun c => (c.1, c.2.1, some c.2.2))).2) := by
  have hfresh : (NewCircuitBreakerProvider cfg).state = .StateClosed := rfl
  have hlt : ((NewCircuitBreakerProvider cfg).failures + init.length : Int) <
      (NewCircuitBreakerProvider cfg).config.MaxFailures := by
    show (0 : Int) + (init.length : Int) < cfg.MaxFailures
    omega
  have hinit := runCalls_closed init (NewCircuitBreakerProvider cfg) hfresh hlt
  set cb1 := (runCalls (NewCircuitBreakerProvider cfg)
    (init.map fun c => (c.1, c.2.1, some c.2.2))).2 with hcb1
  have hstate1 : cb1.state = .StateClosed := hinit.2.1
  have hfail1 : cb1.failures = init.length := by
    have := hinit.2.2.1
    simpa [NewCircuitBreakerProvider] using this
  have hcfg1 : cb1.config = cfg := hinit.2.2.2
  have htrip : cb1.config.MaxFailures ≤ cb1.failures + 1 := by
    rw [hcfg1, hfail1]
    omega
  have hlast : cbCall cb1 ta tb (some e) =
      (.innerResult (some e),
       { cb1 with failures := cb1.failures + 1, lastFailureTime := tb,
                  state := .StateOpen }) := by
    simp [cbCall, beforeRequest_closed cb1 ta hstate1, afterRequest, onFailure, hstate1,
      htrip]
  have hmap : (init ++ [(ta, tb, e)]).map
        (fun c : Int × Int × ProviderError => (c.1, c.2.1, some c.2.2)) =
      (init.map fun c => (c.1, c.2.1, some c.2.2)) ++ [(ta, tb, some e)] := by
    simp
  have hreject : beforeRequest
      { cb1 with failures := cb1.failures + 1, lastFailureTime := tb,
                 state := .StateOpen } t = (some (),
      { cb1 with failures := cb1.failures + 1, lastFailureTime := tb,
                 state := .StateOpen }) := by
    have hno : ¬ cb1.config.ResetTimeout < t - tb := by rw [hcfg1]; omega
    simp [beforeRequest, hno]
  refine ⟨?_, ?_, ?_, ?_⟩ <;> rw [hmap, runCalls_append] <;>
    simp only [runCalls, hlast, ← hcb1]
  · rw [hinit.1]
    simp
  · simp [cbCall, hreject]

/-- Witness for C4: threshold one, a single failing call at time zero, a
probe at time five with reset timeout ten. -/
theorem C4_breaker_trips_witness :
    cbCall (runCalls (NewCircuitBreakerProvider ⟨1, 10⟩)
        ((([] : List (Int × Int × ProviderError)) ++
            [((0 : Int), (0 : Int), NewProviderError "fmp" "GetQuote" 503 "boom")]).map
          fun c => (c.1, c.2.1, some c.2.2))).2 5 6 none =
      (.circuitOpen,
       (runCalls (NewCircuitBreakerProvider ⟨1, 10⟩)
        ((([] : List (Int × Int × ProviderError)) ++
            [((0 : Int), (0 : Int), NewProviderError "fmp" "GetQuote" 503 "boom")]).map
          fun c => (c.1, c.2.1, some c.2.2))).2) :=
  (C4_breaker_trips ⟨1, 10⟩ [] 0 0 (NewProviderError "fmp" "GetQuote" 503 "boom")
    (by norm_num) (by norm_num) 5 6 none (by norm_num)).2.2.2

/-- The refill step keeps the capacity, the refill rate, and stamps the
check instant. -/
theorem refill_fields (tb : TokenBucketLimiter) (now : ℚ) :
    (refill tb now).capacity = tb.capacity ∧ (refill tb now).refillPer = tb.refillPer ∧
    (refill tb now).lastCheck = now := by
  refine ⟨rfl, rfl, rfl⟩

/-- After a refill under a monotone clock and a positive refill rate, the
token count is capped by the capacity and has not decreased. -/
theorem refill_bounds (tb : TokenBucketLimiter) (now : ℚ) (hinv : BucketInv tb)
    (hle : tb.lastCheck ≤ now) (hpos : 0 < tb.refillPer) :
    tb.tokens ≤ (refill tb now).tokens ∧ (refill tb now).tokens ≤ tb.capacity := by
  obtain ⟨h0, hc⟩ := hinv
  have hadd : 0 ≤ (now - tb.lastCheck) / tb.refillPer :=
    div_nonneg (by linarith) (le_of_lt hpos)
  constructor
  · exact le_min (by linarith) (by linarith)
  · exact min_le_left _ _

/-- One Allow call preserves the fields the claim tracks. -/
theorem Allow_fields (tb : TokenBucketLimiter) (now : ℚ) :
    (Allow tb now).2.capacity = tb.capacity ∧ (Allow tb now).2.refillPer = tb.refillPer ∧
    (Allow tb now).2.lastCheck = now := by
  simp only [Allow]
  split <;> exact ⟨rfl, rfl, rfl⟩

/-- C10: for a bucket created with capacity at least one, the invariant
that the token count stays between zero and the capacity holds at
creation, after every Allow call, and at every lock release inside Wait
(both the consuming exit and the sleeping exit); Allow returns true
exactly when, after refilling in proportion to the elapsed time and
capping at the capacity, at least one full token is available, in which
case it consumes exactly one token and otherwise consumes none; and the
invariant is maintained across any monotone sequence of Allow calls. -/
theorem C10_token_bucket :
    (∀ (M W : Int) (t0 : ℚ), 1 ≤ M →
      BucketInv (NewTokenBucketLimiter M W t0) ∧
      (NewTokenBucketLimiter M W t0).capacity = (M : ℚ)) ∧
    (∀ (tb : TokenBucketLimiter) (now : ℚ), BucketInv tb → tb.lastCheck ≤ now →
      0 < tb.refillPer →
      BucketInv (Allow tb now).2 ∧
      (Allow tb now).2.capacity = tb.capacity ∧
      ((Allow tb now).1 = true ↔ 1 ≤ (refill tb now).tokens) ∧
      ((Allow tb now).1 = true → (Allow tb now).2.tokens = (refill tb now).tokens - 1) ∧
      ((Allow tb now).1 = false → (Allow tb now).2.tokens = (refill tb now).tokens)) ∧
    (∀ (tb : TokenBucketLimiter) (now : ℚ), BucketInv tb → tb.lastCheck ≤ now →
      0 < tb.refillPer →
      BucketInv (waitStep tb now).2 ∧ (waitStep tb now).2.capacity = tb.capacity) ∧
    (∀ (tb : TokenBucketLimiter) (ts : List ℚ), BucketInv tb → 0 < tb.refillPer →
      List.Chain (· ≤ ·) tb.lastCheck ts → BucketInv (runAllow tb ts)) := by
  have hallow : ∀ (tb : TokenBucketLimiter) (now : ℚ), BucketInv tb →
      tb.lastCheck ≤ now → 0 < tb.refillPer →
      BucketInv (Allow tb now).2 ∧
      (Allow tb now).2.capacity = tb.capacity ∧
      ((Allow tb now).1 = true ↔ 1 ≤ (refill tb now).tokens) ∧
      ((Allow tb now).1 = true → (Allow tb now).2.tokens = (refill tb now).tokens - 1) ∧
      ((Allow tb now).1 = false → (Allow tb now).2.tokens = (refill tb now).tokens) := by
    intro tb now hinv hle hpos
    obtain ⟨hmono, hcap⟩ := refill_bounds tb now hinv hle hpos
    have h0 : 0 ≤ (refill tb now).tokens := le_trans hinv.1 hmono
    have hcf : (refill tb now).capacity = tb.capacity := rfl
    simp only [Allow]
    split
    · rename_i htok
      refine ⟨⟨?_, ?_⟩, ?_, ?_, (fun _ => rfl), (fun hf => nomatch hf)⟩
      · show (0 : ℚ) ≤ (refill tb now).tokens - 1
        linarith
      · show (refill tb now).tokens - 1 ≤ (refill tb now).capacity
        rw [hcf]
        linarith
      · show (refill tb now).capacity = tb.capacity
        exact hcf
      · simp [htok]
    · rename_i htok
      refine ⟨⟨h0, by rw [← hcf] at hcap; exact hcap⟩, hcf, ?_, (fun ht => nomatch ht),
        (fun _ => rfl)⟩
      simp [htok]
  refine ⟨?_, hallow, ?_, ?_⟩
  · intro M W t0 hM
    have h1 : (1 : ℚ) ≤ (M : ℚ) := by exact_mod_cast hM
    refine ⟨⟨?_, ?_⟩, rfl⟩
    · show (0 : ℚ) ≤ (M : ℚ)
      linarith
    · show (M : ℚ) ≤ (M : ℚ)
      exact le_refl _
  · intro tb now hinv hle hpos
    obtain ⟨hmono, hcap⟩ := refill_bounds tb now hinv hle hpos
    have h0 : 0 ≤ (refill tb now).tokens := le_trans hinv.1 hmono
    have hcf : (refill tb now).capacity = tb.capacity := rfl
    simp only [waitStep]
    split
    · rename_i htok
      refine ⟨⟨?_, ?_⟩, ?_⟩
      · show (0 : ℚ) ≤ (refill tb now).tokens - 1
        linarith
      · show (refill tb now).tokens - 1 ≤ (refill tb now).capacity
        rw [hcf]
        linarith
      · show (refill tb now).capacity = tb.capacity
        exact hcf
    · exact ⟨⟨h0, by rw [← hcf] at hcap; exact hcap⟩, hcf⟩
  · intro tb ts
    induction ts generalizing tb with
    | nil => intro hinv _ _; exact hinv
    | cons t rest ih =>
        intro hinv hpos hchain
        cases hchain with
        | cons hrel hrest =>
            have hstep := hallow tb t hinv hrel hpos
            have hfields := Allow_fields tb t
            have : runAllow tb (t :: rest) = runAllow (Allow tb t).2 rest := rfl
            rw [this]
            exact ih (Allow tb t).2 hstep.1 (by rw [hfields.2.1]; exact hpos)
              (by rw [hfields.2.2]; exact hrest)

/-- Witness for C10: the invariant holds for a freshly created five-token
bucket and is preserved by a concrete Allow call that consumes a token. -/
theorem C10_token_bucket_witness :
    BucketInv (NewTokenBucketLimiter 5 60000000000 0) ∧
    BucketInv (Allow ⟨5, 5, 12000000000, 0⟩ 100).2 := by
  have h := C10_token_bucket
  refine ⟨(h.1 5 60000000000 0 (by norm_num)).1, ?_⟩
  exact (h.2.1 ⟨5, 5, 12000000000, 0⟩ 100 ⟨by norm_num, by norm_num⟩ (by norm_num)
    (by norm_num)).1

end Stocktopus
